import Mathlib

/-!
# Verification of the MultiCore matrix-multiplication labs

Shallow embedding of the repository's three source files:

* `Lab6/My Answers/Step2  - Table.cu` — the CUDA matrix-multiplication
  benchmark (`matrixMulCUDA`, `constantInit`, `checkCorrectness`,
  `matrixMultiply`, `serialMultiply`, `main`);
* `Lab5/Lab5/Codes and docs/MattAdd.cu` — the matrix-addition lab
  (`fillMat`, `addWithCuda`);
* the unnamed CPU matrix-addition exercise (`fillMat`, `addMat`).

Machine `float` values are modelled exactly as dyadic rationals
`m * 2 ^ e` in canonical form, together with the IEEE-754 binary32
round-to-nearest-even operation applied after every arithmetic step
(unbounded exponent range; every value arising in the claims is far inside
the binary32 normal range, where the two semantics coincide).  Stateful
code (buffer writes, the `static` fill counter, the device-call sequences
of `matrixMultiply` / `addWithCuda`, the interactive driver loop of
`main`) is embedded as explicit state passing.
-/

/-! ## IEEE-754 binary32 model: canonical dyadic rationals -/

/-- A machine `float` value `m * 2 ^ e`, kept in canonical form: `m` odd,
or `m = 0 ∧ e = 0`.  With a canonical representation, IEEE `==` on the
values handled here is structural equality. -/
structure F32 where
  m : Int
  e : Int
  deriving DecidableEq

/-- Strip factors of two from the significand (fuel-driven; the fuel
always dominates the number of halvings needed). -/
def oddNormAux : Nat → Int → Int → F32
  | 0, m, e => ⟨m, e⟩
  | f + 1, m, e => if m % 2 = 0 then oddNormAux f (m / 2) (e + 1) else ⟨m, e⟩

/-- Canonical form of the dyadic value `m * 2 ^ e`. -/
def normF (m e : Int) : F32 :=
  if m = 0 then ⟨0, 0⟩ else oddNormAux m.natAbs m e

/-- Number of binary digits of `n` (0 for 0), fuel-driven. -/
def bitsAux : Nat → Nat → Nat
  | 0, _ => 0
  | f + 1, n => if n = 0 then 0 else bitsAux f (n / 2) + 1

/-- Number of binary digits of `n`: `bits n = ⌊log₂ n⌋ + 1` for `n > 0`. -/
def bits (n : Nat) : Nat := bitsAux n n

/-- Round-to-nearest, ties to even, of the quotient `num / den`
(`den > 0`), as used for the low bits discarded by binary32 rounding. -/
def rneDiv (num den : Nat) : Nat :=
  let q := num / den
  let r := num % den
  if 2 * r < den then q
  else if den < 2 * r then q + 1
  else if q % 2 = 0 then q else q + 1

/-- Binary32 rounding of the exact dyadic value `m * 2 ^ e`: if the
significand needs more than 24 bits, the excess low bits are discarded by
round-to-nearest-even. -/
def rdD (m e : Int) : F32 :=
  if m = 0 then ⟨0, 0⟩
  else
    let a := m.natAbs
    let s : Int := if m < 0 then -1 else 1
    let b := bits a
    if b ≤ 24 then normF m e
    else
      let sh := b - 24
      let q := rneDiv a (2 ^ sh)
      normF (s * Int.ofNat q) (e + Int.ofNat sh)

/-- Floor of log₂ of the positive rational `a / den`: doubles or halves
(by doubling the denominator) until the value is in `[1, 2)`. -/
def flogAux : Nat → Nat → Nat → Int → Int
  | 0, _, _, acc => acc
  | f + 1, a, den, acc =>
    if a < den then flogAux f (2 * a) den (acc - 1)
    else if 2 * den ≤ a then flogAux f a (2 * den) (acc + 1)
    else acc

/-- Binary32 rounding of the exact rational `num / den` (`den > 0`): the
value a C `float` literal such as `0.01f` denotes. -/
def rdRat (num : Int) (den : Nat) : F32 :=
  if num = 0 ∨ den = 0 then ⟨0, 0⟩
  else
    let a := num.natAbs
    let s : Int := if num < 0 then -1 else 1
    let lg := flogAux (a + den) a den 0
    let sh := lg - 23
    let q :=
      if 0 ≤ sh then rneDiv a (den * 2 ^ sh.toNat)
      else rneDiv (a * 2 ^ (-sh).toNat) den
    normF (s * Int.ofNat q) sh

/-- The `float` value `0.0f`. -/
def f32Zero : F32 := ⟨0, 0⟩

/-- Single-precision addition: align the two significands on the smaller
exponent, add exactly, then round to binary32. -/
def fadd (x y : F32) : F32 :=
  let e := if x.e ≤ y.e then x.e else y.e
  let mx := x.m * Int.ofNat (2 ^ (x.e - e).toNat)
  let my := y.m * Int.ofNat (2 ^ (y.e - e).toNat)
  rdD (mx + my) e

/-- Single-precision multiplication: multiply exactly, then round. -/
def fmul (x y : F32) : F32 := rdD (x.m * y.m) (x.e + y.e)

/-- The exact (real-number) product of two float values — no rounding.
Used to state expected values such as `valA * valB * n` exactly. -/
def dmulExact (x y : F32) : F32 := normF (x.m * y.m) (x.e + y.e)

/-- The exact (real-number) product `n * x` — no rounding. -/
def dscaleExact (n : Nat) (x : F32) : F32 := normF (Int.ofNat n * x.m) x.e

/-- The `float` literal `1.0f` of the source (`valA`). -/
def f32One : F32 := ⟨1, 0⟩

/-- The `float` literal `0.01f` of the source (`valB`): the binary32
rounding of 1/100. -/
def f32Hundredth : F32 := rdRat 1 100

/-! ## Flat buffers -/

/-- A flat memory buffer, indexed like the C arrays of the source. -/
def Buf (α : Type) : Type := Nat → α

/-- A single store `buf[i] = x`, the effect of one C array assignment. -/
def writeAt {α : Type} (v : Buf α) (i : Nat) (x : α) : Buf α :=
  fun j => if j = i then x else v j

/-! ## `Step2  - Table.cu`: value-level embedding -/

/-- The routine `constantInit(data, size, val)`: `for (i = 0; i < size; ++i) data[i] = val;`
embedded by recursion on the iteration count. -/
def constantInit (data : Buf F32) (size : Nat) (val : F32) : Buf F32 :=
  match size with
  | 0 => data
  | s + 1 => writeAt (constantInit data s val) s val

/-- The accumulation loop of the `matrixMulCUDA` kernel:
`float C_val = 0; for (k = 0; k < bound; ++k) C_val += A[row*n+k] * B[k*n+col];`
(the kernel runs it with `bound = n`). -/
def matrixMulCUDA_Cval (A B : Buf F32) (n row col : Nat) : Nat → F32
  | 0 => f32Zero
  | k + 1 => fadd (matrixMulCUDA_Cval A B n row col k)
      (fmul (A (row * n + k)) (B (k * n + col)))

/-- One CUDA thread of the launch grid, identified by its block and
thread indices (`blockIdx.x/y`, `threadIdx.x/y`). -/
structure GThread where
  blockIdxX : Nat
  blockIdxY : Nat
  threadIdxX : Nat
  threadIdxY : Nat

/-- The kernel `matrixMulCUDA(C, A, B, n)` as executed by one thread with square
block dimension `bdim` (= `blockDim.x` = `blockDim.y`):

    int row = blockIdx.y * blockDim.y + threadIdx.y;
    int col = blockIdx.x * blockDim.x + threadIdx.x;
    ... ;
    C[row * n + col] = C_val;
-/
def matrixMulCUDA (C A B : Buf F32) (n bdim : Nat) (t : GThread) : Buf F32 :=
  let row := t.blockIdxY * bdim + t.threadIdxY
  let col := t.blockIdxX * bdim + t.threadIdxX
  writeAt C (row * n + col) (matrixMulCUDA_Cval A B n row col n)

/-- All threads of a `<<<grid, threads>>>` launch with
`dim3 threads(bdim, bdim, 1)` and `dim3 grid(gdim, gdim, 1)`. -/
def gridThreads (gdim bdim : Nat) : List GThread :=
  (List.range gdim).flatMap fun bx =>
    (List.range gdim).flatMap fun bIy =>
      (List.range bdim).flatMap fun tx =>
        (List.range bdim).map fun ty => ⟨bx, bIy, tx, ty⟩

/-- The kernel launch `matrixMulCUDA<<<grid, threads>>>(d_C, d_A, d_B, n)`:
every thread of the grid executes the kernel; all writes land in the
output buffer (each thread writes its own element). -/
def launchMatrixMulCUDA (C A B : Buf F32) (n bdim gdim : Nat) : Buf F32 :=
  (gridThreads gdim bdim).foldl (fun Cb t => matrixMulCUDA Cb A B n bdim t) C

/-- The row-major index pairs `(i, j)` visited by the nested loops
`for (i = 0; i < sx; i++) for (j = 0; j < sy; j++)`. -/
def rowMajorPairs (sx sy : Nat) : List (Nat × Nat) :=
  (List.range sx).flatMap fun i => (List.range sy).map fun j => (i, j)

/-- The value computed for `h_C[i*n+j]` by `serialMultiply`'s inner loop:
`float sum = 0.0; for (k = 0; k < bound; k++) sum += h_A[i*n+k] * h_B[k*n+j];`
(run with `bound = n`). -/
def serialSum (hA hB : Buf F32) (n i j : Nat) : Nat → F32
  | 0 => f32Zero
  | k + 1 => fadd (serialSum hA hB n i j k)
      (fmul (hA (i * n + k)) (hB (k * n + j)))

/-- The triple-nested multiplication loop of `serialMultiply`, writing
`h_C[i*n+j] = sum` for every `(i, j)` in row-major order. -/
def serialLoop (hA hB : Buf F32) (n : Nat) (hC : Buf F32) : Buf F32 :=
  (rowMajorPairs n n).foldl
    (fun Cb p => writeAt Cb (p.1 * n + p.2) (serialSum hA hB n p.1 p.2 n)) hC

/-- The value content of `matrixMultiply(argc, argv, block_size, grid_size, n)`:
host matrices `h_A`, `h_B` are constant-initialized with `valA`, `valB`,
copied to the device unchanged, the kernel grid is launched, and the result
is copied back.  The source hardcodes `valA = 1.0f`, `valB = 0.01f`; the
fill values are parameters here (the claims quantify over them), as is the
unspecified initial content `junk` of the `malloc`/`cudaMalloc` buffers. -/
def matrixMultiply (block_size grid_size n : Nat) (valA valB : F32)
    (junk : Buf F32) : Buf F32 :=
  let h_A := constantInit junk (n * n) valA
  let h_B := constantInit junk (n * n) valB
  launchMatrixMulCUDA junk h_A h_B n block_size grid_size

/-- The value content of `serialMultiply(n)`: same constant
initialization, then the triple loop on the host. -/
def serialMultiply (n : Nat) (valA valB : F32) (junk : Buf F32) : Buf F32 :=
  let h_A := constantInit junk (n * n) valA
  let h_B := constantInit junk (n * n) valB
  serialLoop h_A h_B n junk

/-- The scan loop of `checkCorrectness` a list of `(i, j)` pairs:
compares `v[i*sy+j]` against `value`; on the first mismatch returns
failure immediately.  Besides the pass/fail outcome it returns the list
of buffer indices actually examined, in order. -/
def checkScan (v : Buf F32) (value : F32) (sy : Nat) :
    List (Nat × Nat) → Bool × List Nat
  | [] => (true, [])
  | p :: rest =>
    let idx := p.1 * sy + p.2
    if v idx = value then
      let r := checkScan v value sy rest
      (r.1, idx :: r.2)
    else (false, [idx])

/-- The routine `checkCorrectness(v, matSizeX, matSizeY)`:

    float value = v[0];
    for (i...) for (j...) if (v[i*matSizeY+j] != value) { fail; return; }
    success

Returns the pass/fail outcome and the indices examined. -/
def checkCorrectness (v : Buf F32) (matSizeX matSizeY : Nat) : Bool × List Nat :=
  checkScan v (v 0) matSizeY (rowMajorPairs matSizeX matSizeY)

/-- The left-to-right single-precision sum of `k` copies of `x`, starting
from `0.0f`: the value both multiplication loops accumulate when the input
matrices are constant-filled. -/
def foldSum (x : F32) : Nat → F32
  | 0 => f32Zero
  | k + 1 => fadd (foldSum x k) x

/-! ## Lemmas about buffer-write folds -/

theorem foldl_writeAt_pres {α β : Type} (g : α → Nat) (f : α → β)
    (l : List α) (C : Buf β) (i : Nat) (v : β)
    (hC : C i = v) (h : ∀ t ∈ l, g t = i → f t = v) :
    (l.foldl (fun Cb t => writeAt Cb (g t) (f t)) C) i = v := by
  induction l generalizing C with
  | nil => simpa using hC
  | cons a rest ih =>
    simp only [List.foldl_cons]
    apply ih
    · by_cases hga : g a = i
      · simp [writeAt, hga, h a (List.mem_cons_self a rest) hga]
      · have : i ≠ g a := fun hc => hga hc.symm
        simp [writeAt, this, hC]
    · intro t ht hgt
      exact h t (List.mem_cons_of_mem _ ht) hgt

theorem foldl_writeAt_get {α β : Type} (g : α → Nat) (f : α → β)
    (l : List α) (C : Buf β) (t : α)
    (ht : t ∈ l) (hagree : ∀ u ∈ l, g u = g t → f u = f t) :
    (l.foldl (fun Cb u => writeAt Cb (g u) (f u)) C) (g t) = f t := by
  induction l generalizing C with
  | nil => cases ht
  | cons a rest ih =>
    simp only [List.foldl_cons]
    by_cases hmem : t ∈ rest
    · exact ih _ hmem fun u hu hgu => hagree u (List.mem_cons_of_mem _ hu) hgu
    · have hta : t = a := by
        rcases List.mem_cons.1 ht with h | h
        · exact h
        · exact absurd h hmem
      subst hta
      apply foldl_writeAt_pres
      · simp [writeAt]
      · intro u hu hgu
        exact hagree u (List.mem_cons_of_mem _ hu) hgu

/-- Row-major flat indexing is injective below the bounds. -/
theorem flatIdx_inj {n ru cu i j : Nat} (hcu : cu < n) (hj : j < n)
    (h : ru * n + cu = i * n + j) : ru = i ∧ cu = j := by
  have hn : 0 < n := by omega
  have hcj : cu = j := by
    have h1 : (ru * n + cu) % n = cu % n := by
      rw [Nat.mul_comm ru n]; exact Nat.mul_add_mod n ru cu
    have h2 : (i * n + j) % n = j % n := by
      rw [Nat.mul_comm i n]; exact Nat.mul_add_mod n i j
    rw [h] at h1
    rw [Nat.mod_eq_of_lt hcu] at h1
    rw [Nat.mod_eq_of_lt hj] at h2
    omega
  subst hcj
  have : ru * n = i * n := by omega
  exact ⟨Nat.eq_of_mul_eq_mul_right hn this, rfl⟩

theorem mem_gridThreads {gdim bdim : Nat} {t : GThread} :
    t ∈ gridThreads gdim bdim ↔
      t.blockIdxX < gdim ∧ t.blockIdxY < gdim ∧
        t.threadIdxX < bdim ∧ t.threadIdxY < bdim := by
  cases t with
  | mk bx bIy tx ty =>
    simp only [gridThreads, List.mem_flatMap, List.mem_map, List.mem_range]
    constructor
    · rintro ⟨bx', hbx', bIy', hbIy', tx', htx', ty', hty', heq⟩
      cases heq
      exact ⟨hbx', hbIy', htx', hty'⟩
    · rintro ⟨hbx, hbIy, htx, hty⟩
      exact ⟨bx, hbx, bIy, hbIy, tx, htx, ty, hty, rfl⟩

theorem mem_rowMajorPairs {sx sy : Nat} {p : Nat × Nat} :
    p ∈ rowMajorPairs sx sy ↔ p.1 < sx ∧ p.2 < sy := by
  cases p with
  | mk i j =>
    simp only [rowMajorPairs, List.mem_flatMap, List.mem_map, List.mem_range]
    constructor
    · rintro ⟨i', hi', j', hj', heq⟩
      cases heq
      exact ⟨hi', hj'⟩
    · rintro ⟨hi, hj⟩
      exact ⟨i, hi, j, hj, rfl⟩

/-- Bounds on the row and column a grid thread computes:
`row < bdim * gdim` and `col < bdim * gdim`. -/
theorem gridThreads_rowcol_lt {gdim bdim : Nat} {u : GThread}
    (hu : u ∈ gridThreads gdim bdim) :
    u.blockIdxY * bdim + u.threadIdxY < bdim * gdim ∧
      u.blockIdxX * bdim + u.threadIdxX < bdim * gdim := by
  rw [mem_gridThreads] at hu
  constructor
  · calc u.blockIdxY * bdim + u.threadIdxY < u.blockIdxY * bdim + bdim := by omega
      _ = (u.blockIdxY + 1) * bdim := by ring
      _ ≤ gdim * bdim := Nat.mul_le_mul_right _ (by omega)
      _ = bdim * gdim := Nat.mul_comm _ _
  · calc u.blockIdxX * bdim + u.threadIdxX < u.blockIdxX * bdim + bdim := by omega
      _ = (u.blockIdxX + 1) * bdim := by ring
      _ ≤ gdim * bdim := Nat.mul_le_mul_right _ (by omega)
      _ = bdim * gdim := Nat.mul_comm _ _

/-- After the launch, the element a grid thread wrote holds that thread's
dot-product value (all threads writing an index agree on its value, since
row and column are determined by the index). -/
theorem launchMatrixMulCUDA_thread (C A B : Buf F32) (bdim gdim : Nat) (u : GThread)
    (hu : u ∈ gridThreads gdim bdim) :
    launchMatrixMulCUDA C A B (bdim * gdim) bdim gdim
      ((u.blockIdxY * bdim + u.threadIdxY) * (bdim * gdim)
        + (u.blockIdxX * bdim + u.threadIdxX))
      = matrixMulCUDA_Cval A B (bdim * gdim) (u.blockIdxY * bdim + u.threadIdxY)
          (u.blockIdxX * bdim + u.threadIdxX) (bdim * gdim) := by
  refine foldl_writeAt_get
    (g := fun w : GThread =>
      (w.blockIdxY * bdim + w.threadIdxY) * (bdim * gdim)
        + (w.blockIdxX * bdim + w.threadIdxX))
    (f := fun w : GThread =>
      matrixMulCUDA_Cval A B (bdim * gdim) (w.blockIdxY * bdim + w.threadIdxY)
        (w.blockIdxX * bdim + w.threadIdxX) (bdim * gdim))
    (gridThreads gdim bdim) C u hu ?_
  intro w hw hgw
  obtain ⟨hwr, hwc⟩ := gridThreads_rowcol_lt hw
  obtain ⟨hur, huc⟩ := gridThreads_rowcol_lt hu
  obtain ⟨h1, h2⟩ := flatIdx_inj hwc huc hgw
  simp only [h1, h2]

/-- Every output element of the kernel launch is the dot-product value of
its own row and column: the grid covers the `n × n` matrix with one worker
per element (`n = bdim * gdim`). -/
theorem launchMatrixMulCUDA_get (C A B : Buf F32) (bdim gdim i j : Nat)
    (hi : i < bdim * gdim) (hj : j < bdim * gdim) :
    launchMatrixMulCUDA C A B (bdim * gdim) bdim gdim (i * (bdim * gdim) + j)
      = matrixMulCUDA_Cval A B (bdim * gdim) i j (bdim * gdim) := by
  have hb : 0 < bdim := by
    rcases Nat.eq_zero_or_pos bdim with h | h
    · subst h; simp at hi
    · exact h
  have hrow : i / bdim * bdim + i % bdim = i := by
    rw [Nat.mul_comm]; exact Nat.div_add_mod i bdim
  have hcol : j / bdim * bdim + j % bdim = j := by
    rw [Nat.mul_comm]; exact Nat.div_add_mod j bdim
  have hmem : (⟨j / bdim, i / bdim, j % bdim, i % bdim⟩ : GThread)
      ∈ gridThreads gdim bdim := by
    rw [mem_gridThreads]
    exact ⟨Nat.div_lt_of_lt_mul hj, Nat.div_lt_of_lt_mul hi,
      Nat.mod_lt _ hb, Nat.mod_lt _ hb⟩
  have key := launchMatrixMulCUDA_thread C A B bdim gdim
    ⟨j / bdim, i / bdim, j % bdim, i % bdim⟩ hmem
  simpa only [hrow, hcol] using key

/-- Every output element of the serial triple loop is its own dot-product
value. -/
theorem serialLoop_get (hA hB hC : Buf F32) (n i j : Nat)
    (hi : i < n) (hj : j < n) :
    serialLoop hA hB n hC (i * n + j) = serialSum hA hB n i j n := by
  have key := foldl_writeAt_get
    (g := fun p : Nat × Nat => p.1 * n + p.2)
    (f := fun p : Nat × Nat => serialSum hA hB n p.1 p.2 n)
    (l := rowMajorPairs n n) (C := hC) (t := (i, j))
    (mem_rowMajorPairs.2 ⟨hi, hj⟩) ?_
  · exact key
  · intro u hu hgu
    obtain ⟨hu1, hu2⟩ := mem_rowMajorPairs.1 hu
    obtain ⟨h1, h2⟩ := flatIdx_inj hu2 hj hgu
    rw [show u = (i, j) from Prod.ext h1 h2]

/-- The routine `constantInit` writes `val` into every index below `size`. -/
theorem constantInit_get (data : Buf F32) (size : Nat) (val : F32) (i : Nat)
    (h : i < size) : constantInit data size val i = val := by
  induction size with
  | zero => omega
  | succ s ih =>
    by_cases hi : i = s
    · simp [constantInit, writeAt, hi]
    · have hlt : i < s := by omega
      simp only [constantInit, writeAt]
      rw [if_neg hi]
      exact ih hlt

/-- The serial inner loop accumulates exactly as the kernel loop does. -/
theorem serialSum_eq_Cval (hA hB : Buf F32) (n i j k : Nat) :
    serialSum hA hB n i j k = matrixMulCUDA_Cval hA hB n i j k := by
  induction k with
  | zero => rfl
  | succ k ih => simp only [serialSum, matrixMulCUDA_Cval, ih]

/-- Over constant-filled `n × n` inputs the kernel accumulation loop
computes the left-to-right float sum of `k` copies of `valA * valB`. -/
theorem matrixMulCUDA_Cval_const (junkA junkB : Buf F32) (valA valB : F32)
    (n row col : Nat) (hrow : row < n) (hcol : col < n) (k : Nat) (hk : k ≤ n) :
    matrixMulCUDA_Cval (constantInit junkA (n * n) valA)
      (constantInit junkB (n * n) valB) n row col k
      = foldSum (fmul valA valB) k := by
  induction k with
  | zero => rfl
  | succ k ih =>
    have hk' : k ≤ n := by omega
    have hklt : k < n := by omega
    have hA : row * n + k < n * n := by
      calc row * n + k < row * n + n := by omega
        _ = (row + 1) * n := by ring
        _ ≤ n * n := Nat.mul_le_mul_right _ (by omega)
    have hB : k * n + col < n * n := by
      calc k * n + col < k * n + n := by omega
        _ = (k + 1) * n := by ring
        _ ≤ n * n := Nat.mul_le_mul_right _ (by omega)
    simp only [matrixMulCUDA_Cval, foldSum, ih hk',
      constantInit_get _ _ _ _ hA, constantInit_get _ _ _ _ hB]

/-! ## Claim C1 -/

/-- C1, counterexample.  The claim "for every n > 0 and constant fills
valA, valB, every element of C equals valA * valB * n under
single-precision floating-point arithmetic" fails on the code: for
`n = 6`, `valA = 1.0f`, `valB = 1 + 2⁻²³` (an exact `float`), both
multipliers put `6 + 2⁻²¹ = 12582913 * 2⁻²¹` in every element, while
`valA * valB * n = 6 + 6 * 2⁻²³ = 25165827 * 2⁻²²` exactly, and
`6291457 * 2⁻²⁰` after binary32 rounding — three distinct values.  The
accumulated rounding of the left-to-right float sum makes the closed form
false in general. -/
theorem C1_counterexample :
    serialMultiply 6 f32One ⟨8388609, -23⟩ (fun _ => f32Zero) 0
        = matrixMultiply 6 1 6 f32One ⟨8388609, -23⟩ (fun _ => f32Zero) 0
      ∧ serialMultiply 6 f32One ⟨8388609, -23⟩ (fun _ => f32Zero) 0
        ≠ dscaleExact 6 (dmulExact f32One ⟨8388609, -23⟩)
      ∧ serialMultiply 6 f32One ⟨8388609, -23⟩ (fun _ => f32Zero) 0
        ≠ (let x := dscaleExact 6 (dmulExact f32One ⟨8388609, -23⟩); rdD x.m x.e) := by
  decide

/-- C1 (amended): for every worker-group shape `bdim > 0`, group-count
shape `gdim` and constant fills `valA`, `valB`, both the accelerated and
the sequential multiplier put in every element of C the left-to-right
single-precision sum of `n` copies of `valA * valB` (`n = bdim * gdim`);
this equals `valA * valB * n` whenever no rounding occurs, and in
particular for shapes 2, 2 (n = 4, valA = 1.0, valB = 0.01) that sum is
exactly the `float` value 0.04, so every element of C equals 0.04 and
the two multipliers agree. -/
theorem C1_every_element_foldSum (bdim gdim : Nat) (valA valB : F32)
    (junk : Buf F32) (i j : Nat)
    (hi : i < bdim * gdim) (hj : j < bdim * gdim) :
    matrixMultiply bdim gdim (bdim * gdim) valA valB junk (i * (bdim * gdim) + j)
        = foldSum (fmul valA valB) (bdim * gdim)
      ∧ serialMultiply (bdim * gdim) valA valB junk (i * (bdim * gdim) + j)
        = foldSum (fmul valA valB) (bdim * gdim)
      ∧ foldSum (fmul f32One f32Hundredth) 4 = rdRat 1 25 := by
  refine ⟨?_, ?_, by decide⟩
  · show launchMatrixMulCUDA junk (constantInit junk _ valA) (constantInit junk _ valB)
      (bdim * gdim) bdim gdim (i * (bdim * gdim) + j) = _
    rw [launchMatrixMulCUDA_get _ _ _ _ _ _ _ hi hj]
    exact matrixMulCUDA_Cval_const junk junk valA valB _ i j hi hj _ le_rfl
  · show serialLoop (constantInit junk _ valA) (constantInit junk _ valB)
      (bdim * gdim) junk (i * (bdim * gdim) + j) = _
    rw [serialLoop_get _ _ _ _ _ _ hi hj, serialSum_eq_Cval]
    exact matrixMulCUDA_Cval_const junk junk valA valB _ i j hi hj _ le_rfl

/-- Witness for C1: shapes 2, 2, fills 1.0 and 0.01, element (0, 1). -/
theorem C1_every_element_foldSum_witness :
    ((0 : Nat) < 2 * 2 ∧ (1 : Nat) < 2 * 2)
      ∧ (matrixMultiply 2 2 (2 * 2) f32One f32Hundredth (fun _ => f32Zero)
            (0 * (2 * 2) + 1) = foldSum (fmul f32One f32Hundredth) (2 * 2)
        ∧ serialMultiply (2 * 2) f32One f32Hundredth (fun _ => f32Zero)
            (0 * (2 * 2) + 1) = foldSum (fmul f32One f32Hundredth) (2 * 2)
        ∧ foldSum (fmul f32One f32Hundredth) 4 = rdRat 1 25) :=
  ⟨⟨by decide, by decide⟩,
    C1_every_element_foldSum 2 2 f32One f32Hundredth (fun _ => f32Zero) 0 1
      (by decide) (by decide)⟩

/-! ## Claims C2, C10, C6: the correctness checker -/

/-- The scan passes exactly when every listed element equals `value`. -/
theorem checkScan_fst_true_iff (v : Buf F32) (value : F32) (sy : Nat)
    (l : List (Nat × Nat)) :
    (checkScan v value sy l).1 = true ↔ ∀ p ∈ l, v (p.1 * sy + p.2) = value := by
  induction l with
  | nil => simp [checkScan]
  | cons p rest ih =>
    by_cases h : v (p.1 * sy + p.2) = value
    · simp [checkScan, h, ih]
    · simp only [checkScan, if_neg h]
      constructor
      · intro hfalse; cases hfalse
      · intro hall
        exact absurd (hall p (List.mem_cons_self p rest)) h

/-- C2 (amended): the checker verifies each element against the matrix's
own first element `v[0]` — it reports success iff every element equals
`v[0]`.  It never computes or compares against the closed-form expected
value `valA * valB * n`. -/
theorem C2_checker_compares_first_element (v : Buf F32) (sx sy : Nat) :
    (checkCorrectness v sx sy).1 = true ↔
      ∀ i < sx, ∀ j < sy, v (i * sy + j) = v 0 := by
  rw [checkCorrectness, checkScan_fst_true_iff]
  constructor
  · intro h i hi j hj
    exact h (i, j) (mem_rowMajorPairs.2 ⟨hi, hj⟩)
  · intro h p hp
    obtain ⟨h1, h2⟩ := mem_rowMajorPairs.1 hp
    exact h p.1 h1 p.2 h2

/-- C2, counterexample.  The claim "checkCorrectness verifies that each
element equals valA * valB * n and reports failure on any element that
deviates from that expected constant" fails on the code: a 2×2 buffer
uniformly filled with 7.0 passes the check even though with
`valA = valB = 1.0f` and `n = 2` every element deviates from the expected
constant 2.0. -/
theorem C2_counterexample :
    (checkCorrectness (fun _ => ⟨7, 0⟩) 2 2).1 = true
      ∧ (∀ i < 2, ∀ j < 2, (fun _ : Nat => (⟨7, 0⟩ : F32)) (i * 2 + j)
          ≠ dscaleExact 2 (dmulExact f32One f32One)) := by
  decide

/-- C10: a result buffer all of whose elements equal its first element
`v[0]` passes the checker, whatever that value is. -/
theorem C10_uniform_buffer_passes (v : Buf F32) (sx sy : Nat)
    (h : ∀ i < sx, ∀ j < sy, v (i * sy + j) = v 0) :
    (checkCorrectness v sx sy).1 = true := by
  rw [checkCorrectness, checkScan_fst_true_iff]
  intro p hp
  obtain ⟨h1, h2⟩ := mem_rowMajorPairs.1 hp
  exact h p.1 h1 p.2 h2

/-- Witness for C10: a 3×3 buffer uniformly filled with 7.0 passes. -/
theorem C10_uniform_buffer_passes_witness :
    (∀ i < 3, ∀ j < 3, (fun _ : Nat => (⟨7, 0⟩ : F32)) (i * 3 + j)
        = (fun _ : Nat => (⟨7, 0⟩ : F32)) 0)
      ∧ (checkCorrectness (fun _ => ⟨7, 0⟩) 3 3).1 = true :=
  ⟨by decide, C10_uniform_buffer_passes (fun _ => ⟨7, 0⟩) 3 3 (by decide)⟩

/-- Splitting `List.range n` at an element `a < n`. -/
theorem range_split {a n : Nat} (h : a < n) :
    ∃ t, List.range n = List.range a ++ a :: t := by
  induction n with
  | zero => omega
  | succ n ih =>
    rcases Nat.lt_or_ge a n with h' | h'
    · obtain ⟨t, ht⟩ := ih h'
      exact ⟨t ++ [n], by rw [List.range_succ, ht]; simp⟩
    · have ha : a = n := by omega
      subst ha
      exact ⟨[], by rw [List.range_succ]⟩

/-- Splitting the row-major pair list at the pair `(i0, j0)`: everything
before it is the full rows above `i0` followed by the first `j0` entries
of row `i0`. -/
theorem rowMajorPairs_split (sx sy i0 j0 : Nat) (hi : i0 < sx) (hj : j0 < sy) :
    ∃ tail, rowMajorPairs sx sy
      = (rowMajorPairs i0 sy ++ (List.range j0).map fun j => (i0, j))
          ++ (i0, j0) :: tail := by
  obtain ⟨tr, htr⟩ := range_split hi
  obtain ⟨tc, htc⟩ := range_split hj
  refine ⟨(tc.map fun j => (i0, j))
      ++ tr.flatMap fun i => (List.range sy).map fun j => (i, j), ?_⟩
  have hmid : ((List.range sy).map fun j => (i0, j))
      = ((List.range j0).map fun j => (i0, j))
          ++ (i0, j0) :: tc.map fun j => (i0, j) := by
    rw [htc]; simp
  rw [rowMajorPairs, htr]
  simp only [List.flatMap_append, List.flatMap_cons]
  rw [hmid, rowMajorPairs]
  simp [List.append_assoc]

/-- The scan over a list whose first mismatch is `p0` returns failure with
exactly the indices up to and including `p0` examined. -/
theorem checkScan_first_mismatch (v : Buf F32) (value : F32) (sy : Nat)
    (l1 l2 : List (Nat × Nat)) (p0 : Nat × Nat)
    (hgood : ∀ p ∈ l1, v (p.1 * sy + p.2) = value)
    (hbad : v (p0.1 * sy + p0.2) ≠ value) :
    checkScan v value sy (l1 ++ p0 :: l2)
      = (false, (l1.map fun p => p.1 * sy + p.2) ++ [p0.1 * sy + p0.2]) := by
  induction l1 with
  | nil => simp [checkScan, hbad]
  | cons p rest ih =>
    have hp := hgood p (List.mem_cons_self p rest)
    have hrest := ih fun q hq => hgood q (List.mem_cons_of_mem _ hq)
    simp [checkScan, hp, hrest]

/-- C6: the checker scans in row-major order and, at the first mismatching
element, reports failure and stops: the examined indices are exactly the
row-major predecessors of the mismatch plus the mismatching index itself —
nothing after it is examined. -/
theorem C6_checker_fail_fast (v : Buf F32) (sx sy i0 j0 : Nat)
    (hi : i0 < sx) (hj : j0 < sy)
    (hbad : v (i0 * sy + j0) ≠ v 0)
    (hgood : ∀ i j, i < sx → j < sy → (i < i0 ∨ (i = i0 ∧ j < j0)) →
      v (i * sy + j) = v 0) :
    checkCorrectness v sx sy
      = (false,
          ((rowMajorPairs i0 sy ++ (List.range j0).map fun j => (i0, j)).map
              fun p => p.1 * sy + p.2)
            ++ [i0 * sy + j0]) := by
  obtain ⟨tail, hsplit⟩ := rowMajorPairs_split sx sy i0 j0 hi hj
  rw [checkCorrectness, hsplit]
  refine checkScan_first_mismatch v (v 0) sy _ tail (i0, j0) ?_ hbad
  intro p hp
  rcases List.mem_append.1 hp with h | h
  · obtain ⟨h1, h2⟩ := mem_rowMajorPairs.1 h
    exact hgood p.1 p.2 (by omega) h2 (Or.inl h1)
  · obtain ⟨j, hjmem, rfl⟩ := List.mem_map.1 h
    have hjlt := List.mem_range.1 hjmem
    exact hgood i0 j hi (by omega) (Or.inr ⟨rfl, hjlt⟩)

/-- Witness for C6: a 2×2 buffer of 1.0 with its element (1, 0) — flat
index 2 — corrupted to 9.0: the checker reports failure having examined
exactly indices 0, 1, 2, never reaching index 3. -/
theorem C6_checker_fail_fast_witness :
    checkCorrectness (writeAt (fun _ => f32One) 2 ⟨9, 0⟩) 2 2 = (false, [0, 1, 2]) := by
  have h := C6_checker_fail_fast (writeAt (fun _ => f32One) 2 ⟨9, 0⟩) 2 2 1 0
    (by decide) (by decide) (by decide)
    (by
      intro i j hi hj hc
      rcases hc with h1 | ⟨rfl, h3⟩
      · have hz : i = 0 := by omega
        subst hz
        interval_cases j <;> decide
      · omega)
  rw [h]
  decide

/-! ## `fillMat` of the matrix-addition labs (claim C9) -/

/-- The inner loop of `fillMat` over one row: iteration `j` executes
`v[base + j] = L++`, where `base = i * matSizeY` and `L` is the value of
the `static int L` counter when the row starts.  Returns the updated
buffer and counter. -/
def fillRow (v : Buf Int) (base : Nat) (L : Int) : Nat → Buf Int × Int
  | 0 => (v, L)
  | j + 1 =>
    let r := fillRow v base L j
    (writeAt r.1 (base + j) r.2, r.2 + 1)

/-- The outer loop of `fillMat` over the rows. -/
def fillRows (v : Buf Int) (sy : Nat) (L : Int) : Nat → Buf Int × Int
  | 0 => (v, L)
  | i + 1 =>
    let r := fillRows v sy L i
    fillRow r.1 (i * sy) r.2 sy

/-- The routine `fillMat(v, matSizeX, matSizeY)` of `MattAdd.cu` and the unnamed CPU
exercise:

    static int L = 0;
    for (i...) for (j...) v[i*matSizeY + j] = L++;

The `static` counter is threaded explicitly: the function takes the
counter's value at entry and returns its value at exit. -/
def fillMat (v : Buf Int) (matSizeX matSizeY : Nat) (L : Int) : Buf Int × Int :=
  fillRows v matSizeY L matSizeX

theorem fillRow_snd (v : Buf Int) (base : Nat) (L : Int) (m : Nat) :
    (fillRow v base L m).2 = L + m := by
  induction m with
  | zero => simp [fillRow]
  | succ m ih =>
    simp only [fillRow]
    rw [ih]
    omega

theorem fillRow_get_lt (v : Buf Int) (base : Nat) (L : Int) (m t : Nat)
    (h : t < m) : (fillRow v base L m).1 (base + t) = L + t := by
  induction m with
  | zero => omega
  | succ m ih =>
    by_cases ht : t = m
    · subst ht
      simp [fillRow, writeAt, fillRow_snd]
    · have hlt : t < m := by omega
      have hne : base + t ≠ base + m := by omega
      simp only [fillRow, writeAt]
      rw [if_neg hne]
      exact ih hlt

theorem fillRow_get_low (v : Buf Int) (base : Nat) (L : Int) (m idx : Nat)
    (h : idx < base) : (fillRow v base L m).1 idx = v idx := by
  induction m with
  | zero => rfl
  | succ m ih =>
    have hne : idx ≠ base + m := by omega
    simp only [fillRow, writeAt]
    rw [if_neg hne]
    exact ih

theorem fillRows_snd (v : Buf Int) (sy : Nat) (L : Int) (m : Nat) :
    (fillRows v sy L m).2 = L + m * sy := by
  induction m with
  | zero => simp [fillRows]
  | succ m ih =>
    simp only [fillRows, fillRow_snd, ih]
    push_cast
    ring

theorem fillRows_get (v : Buf Int) (sy : Nat) (L : Int) (m i j : Nat)
    (hi : i < m) (hj : j < sy) :
    (fillRows v sy L m).1 (i * sy + j) = L + i * sy + j := by
  induction m with
  | zero => omega
  | succ m ih =>
    by_cases him : i = m
    · subst him
      simp only [fillRows]
      have := fillRow_get_lt (fillRows v sy L i).1 (i * sy) (fillRows v sy L i).2 sy j hj
      rw [this, fillRows_snd]
    · have hlt : i < m := by omega
      simp only [fillRows]
      have hlow : i * sy + j < m * sy := by
        calc i * sy + j < i * sy + sy := by omega
          _ = (i + 1) * sy := by ring
          _ ≤ m * sy := Nat.mul_le_mul_right _ (by omega)
      rw [fillRow_get_low _ _ _ _ _ hlow]
      exact ih hlt

/-- C9: `fillMat` draws from a counter that persists across calls — after
the two successive calls in the labs' `main` (first on `a` with the
counter at 0, then on `b`), every element of `b` equals the corresponding
element of `a` plus `matSizeX * matSizeY`. -/
theorem C9_fillMat_counter_persists (v0 v1 : Buf Int)
    (matSizeX matSizeY i j : Nat) (hi : i < matSizeX) (hj : j < matSizeY) :
    (fillMat v1 matSizeX matSizeY (fillMat v0 matSizeX matSizeY 0).2).1
        (i * matSizeY + j)
      = (fillMat v0 matSizeX matSizeY 0).1 (i * matSizeY + j)
          + matSizeX * matSizeY := by
  have hc : (fillMat v0 matSizeX matSizeY 0).2
      = ((matSizeX * matSizeY : Nat) : Int) := by
    show (fillRows v0 matSizeY 0 matSizeX).2 = _
    rw [fillRows_snd]
    omega
  have h1 := fillRows_get v0 matSizeY 0 matSizeX i j hi hj
  have h2 := fillRows_get v1 matSizeY ((fillMat v0 matSizeX matSizeY 0).2)
    matSizeX i j hi hj
  show (fillRows v1 matSizeY (fillMat v0 matSizeX matSizeY 0).2 matSizeX).1
      (i * matSizeY + j)
    = (fillRows v0 matSizeY 0 matSizeX).1 (i * matSizeY + j) + _
  rw [h1, h2, hc]
  omega

/-! ## Device-call traces of `matrixMultiply` and `addWithCuda`
(claims C3 and C7) -/

/-- The device API calls the two routines make, in source order.  `kLaunch`
is the kernel launch itself (fire-and-forget: its failure surfaces at the
following `cudaGetLastError`, modelled as `lastErr`). -/
inductive DevOp where
  | setDev | mallocA | mallocB | mallocC
  | cpyA | cpyB
  | evCreateStart | evCreateStop | recStart
  | kLaunch | lastErr | recStop | evSync | elapsed | devSync
  | cpyC
  | freeA | freeB | freeC
  deriving DecidableEq

/-- Run a sequence of device calls under a failure oracle: each call is
performed in order; the first failing (checked) call aborts the sequence,
returning the calls performed so far and `true` for "aborted". -/
def runCalls (fails : DevOp → Bool) : List DevOp → List DevOp × Bool
  | [] => ([], false)
  | op :: rest =>
    if op ≠ DevOp.kLaunch ∧ fails op = true then ([op], true)
    else
      let r := runCalls fails rest
      (op :: r.1, r.2)

/-- The checked device calls of `matrixMultiply`, in source order:
`cudaMalloc d_A/d_B/d_C`, `cudaMemcpy` of A and B host→device,
`cudaEventCreate` twice, `cudaEventRecord(start)`, the kernel launch,
`cudaGetLastError`, `cudaEventRecord(stop)`, `cudaEventSynchronize(stop)`,
`cudaEventElapsedTime`, and `cudaMemcpy` of C device→host.  Every failure
check calls `exit(EXIT_FAILURE)` directly. -/
def matrixMultiplyCalls : List DevOp :=
  [.mallocA, .mallocB, .mallocC, .cpyA, .cpyB,
   .evCreateStart, .evCreateStop, .recStart, .kLaunch, .lastErr,
   .recStop, .evSync, .elapsed, .cpyC]

/-- The device-call trace of `matrixMultiply` under a failure oracle: on
any failure the routine exits fatally at once (second component `true`);
only the successful path reaches the `cudaFree` calls at the end. -/
def matrixMultiplyTrace (fails : DevOp → Bool) : List DevOp × Bool :=
  if (runCalls fails matrixMultiplyCalls).2 then runCalls fails matrixMultiplyCalls
  else ((runCalls fails matrixMultiplyCalls).1
    ++ [DevOp.freeA, DevOp.freeB, DevOp.freeC], false)

/-- The checked device calls of `addWithCuda` (`MattAdd.cu`), in source
order: `cudaSetDevice`, `cudaMalloc dev_c/dev_a/dev_b`, the two input
`cudaMemcpy`s, the kernel launch, `cudaGetLastError`,
`cudaDeviceSynchronize`, and the output `cudaMemcpy`. -/
def addWithCudaCalls : List DevOp :=
  [.setDev, .mallocC, .mallocA, .mallocB, .cpyA, .cpyB,
   .kLaunch, .lastErr, .devSync, .cpyC]

/-- The device-call trace of `addWithCuda`: every failure jumps
(`goto Error`) to the label that frees `dev_c`, `dev_a`, `dev_b`, and the
success path falls through to the same label, so the frees always run. -/
def addWithCudaTrace (fails : DevOp → Bool) : List DevOp :=
  (runCalls fails addWithCudaCalls).1
    ++ [DevOp.freeC, DevOp.freeA, DevOp.freeB]

/-- The `cudaFree` call corresponding to a `cudaMalloc` call. -/
def freeOf : DevOp → DevOp
  | .mallocA => .freeA
  | .mallocB => .freeB
  | .mallocC => .freeC
  | op => op

/-- Whether a device call is an allocation. -/
def isMalloc : DevOp → Bool
  | .mallocA => true
  | .mallocB => true
  | .mallocC => true
  | _ => false

/-- The device buffers a trace leaks: allocations that were performed and
succeeded but whose matching `cudaFree` never appears in the trace. -/
def leakedDevBuffers (fails : DevOp → Bool) (trace : List DevOp) : List DevOp :=
  trace.filter fun op => isMalloc op && !(fails op) && !(trace.contains (freeOf op))

/-- A trace containing all three frees leaks nothing. -/
theorem leaked_nil_of_frees (fails : DevOp → Bool) (trace : List DevOp)
    (hA : DevOp.freeA ∈ trace) (hB : DevOp.freeB ∈ trace)
    (hC : DevOp.freeC ∈ trace) :
    leakedDevBuffers fails trace = [] := by
  rw [leakedDevBuffers, List.filter_eq_nil_iff]
  intro op hop
  cases op <;> simp [isMalloc, freeOf, hA, hB, hC]

/-- C3, counterexample.  The claim "on every exit path of the accelerated
multiplier every allocated device buffer is released before the routine
returns or the process exits fatally" fails on the code: when
`cudaMalloc d_B` fails, `matrixMultiply` calls `exit(EXIT_FAILURE)`
immediately — the already-allocated `d_A` is never freed (the `cudaFree`
calls sit only on the success path, after the result copy-back). -/
theorem C3_counterexample :
    (matrixMultiplyTrace (fun op => op == DevOp.mallocB)).2 = true
      ∧ leakedDevBuffers (fun op => op == DevOp.mallocB)
          (matrixMultiplyTrace (fun op => op == DevOp.mallocB)).1
        = [DevOp.mallocA] := by
  decide

/-- C3 (amended): `addWithCuda` (MattAdd.cu) releases every device buffer
it allocated on every exit path — all failure paths `goto` the common
free-and-return label; `matrixMultiply` (Step2) releases its device
buffers only on the non-fatal path — a device-call failure exits the
process without freeing the buffers already allocated. -/
theorem C3_device_buffers_released (fails : DevOp → Bool) :
    leakedDevBuffers fails (addWithCudaTrace fails) = []
      ∧ ((matrixMultiplyTrace fails).2 = false →
          leakedDevBuffers fails (matrixMultiplyTrace fails).1 = []) := by
  constructor
  · apply leaked_nil_of_frees <;>
      · rw [addWithCudaTrace]
        exact List.mem_append_right _ (by decide)
  · intro hok
    by_cases h : (runCalls fails matrixMultiplyCalls).2
    · rw [matrixMultiplyTrace, if_pos h] at hok
      exact absurd hok (by simp [h])
    · rw [matrixMultiplyTrace, if_neg h]
      apply leaked_nil_of_frees <;>
        exact List.mem_append_right _ (by decide)

/-- Witness for C3 (amended), at the all-succeed oracle, with the
non-fatal hypothesis discharged concretely. -/
theorem C3_device_buffers_released_witness :
    leakedDevBuffers (fun _ => false) (addWithCudaTrace (fun _ => false)) = []
      ∧ leakedDevBuffers (fun _ => false)
          (matrixMultiplyTrace (fun _ => false)).1 = [] :=
  ⟨(C3_device_buffers_released (fun _ => false)).1,
    (C3_device_buffers_released (fun _ => false)).2 (by decide)⟩

/-- The device-call trace of a successful `matrixMultiply` invocation. -/
def mmOkTrace : List DevOp := (matrixMultiplyTrace (fun _ => false)).1

/-- The position of a device call in the successful trace. -/
def mmOkPos (op : DevOp) : Nat := mmOkTrace.findIdx (· == op)

/-- C7: on the successful path, both host-to-device input copies precede
the recording of the start event, the start event precedes the kernel
launch, the stop event follows it, and the device-to-host result copy
comes only after the stop event (indeed after synchronizing on it); the
only operations strictly between the two event recordings are the kernel
launch and its error check — the measured interval covers kernel
execution only, not the transfers. -/
theorem C7_timing_covers_kernel_only :
    mmOkPos DevOp.cpyA < mmOkPos DevOp.recStart
      ∧ mmOkPos DevOp.cpyB < mmOkPos DevOp.recStart
      ∧ mmOkPos DevOp.recStart < mmOkPos DevOp.kLaunch
      ∧ mmOkPos DevOp.kLaunch < mmOkPos DevOp.recStop
      ∧ mmOkPos DevOp.recStop < mmOkPos DevOp.evSync
      ∧ mmOkPos DevOp.evSync < mmOkPos DevOp.cpyC
      ∧ (mmOkTrace.drop (mmOkPos DevOp.recStart + 1)).take
            (mmOkPos DevOp.recStop - mmOkPos DevOp.recStart - 1)
          = [DevOp.kLaunch, DevOp.lastErr] := by
  decide

/-! ## The benchmark driver loop of `main` (claims C4, C5, C8) -/

/-- Whether the launch configuration `dim3 threads(block_size, block_size, 1)`,
`dim3 grid(grid_size, grid_size, 1)` is necessarily invalid: a non-positive
`int` converts to the unsigned `dim3` component as 0 (for zero) or a value
far above any device limit (for negatives), so the kernel launch is
rejected and the failure surfaces at the `cudaGetLastError` check.  For
positive shapes the model takes no position — the failure oracle stays
free there. -/
def launchConfigBad (b g : Int) : Bool :=
  decide (b ≤ 0) || decide (g ≤ 0)

/-- The failure oracle a `matrixMultiply` call for the pair `(b, g)`
actually experiences: the ambient oracle, plus the forced failure of the
post-launch `cudaGetLastError` check whenever the configuration is
invalid. -/
def failsFor (fails : DevOp → Bool) (b g : Int) : DevOp → Bool :=
  fun op => fails op || (op == DevOp.lastErr && launchConfigBad b g)

/-- Everything one COMPLETED pass of the `while (block_size > 0)` loop of
`main` produces for an operator-supplied pair: the pair itself, the
derived matrix dimension `n = block_size * grid_size`, the device-call
trace of the `matrixMultiply` call, and the two output matrices.  The
source fixes the fills at `valA = 1.0f`, `valB = 0.01f`. -/
structure IterRecord where
  block_size : Int
  grid_size : Int
  n : Nat
  devTrace : List DevOp
  cudaC : Buf F32
  serialC : Buf F32

/-- What a pass that killed the process records: the pair, the silently
computed dimension, and the device calls performed before the fatal
`exit(EXIT_FAILURE)`.  No output matrices exist — `serialMultiply` and the
correctness checks are never reached. -/
structure FatalRecord where
  block_size : Int
  grid_size : Int
  n : Nat
  devTrace : List DevOp
  deriving DecidableEq

/-- One completed loop-body pass: `n = block_size * grid_size;` then
`matrixMultiply(..., block_size, grid_size, n)` and `serialMultiply(n)`.
No validation of the pair happens anywhere in the body. -/
def benchIteration (fails : DevOp → Bool) (b g : Int) : IterRecord :=
  { block_size := b
    grid_size := g
    n := (b * g).toNat
    devTrace := (matrixMultiplyTrace (failsFor fails b g)).1
    cudaC := matrixMultiply b.toNat g.toNat (b * g).toNat f32One f32Hundredth
      (fun _ => f32Zero)
    serialC := serialMultiply (b * g).toNat f32One f32Hundredth (fun _ => f32Zero) }

/-- How a run of the driver ends: `normal` — the loop condition
`block_size > 0` became false and `main` reached `exit(0)`; `awaitInput` —
every supplied pair was consumed with the loop still live, i.e. the
program is blocked on `scanf`; `fatalExit` — a device-call failure inside
`matrixMultiply` killed the process with `exit(EXIT_FAILURE)` mid-pass,
after the listed completed iterations. -/
inductive DriverOutcome where
  | normal (iters : List IterRecord)
  | awaitInput (iters : List IterRecord)
  | fatalExit (iters : List IterRecord) (culprit : FatalRecord)

/-- The completed iterations of a driver run. -/
def outcomeIters : DriverOutcome → List IterRecord
  | .normal l => l
  | .awaitInput l => l
  | .fatalExit l _ => l

/-- Whether the driver run reached normal termination (`exit(0)`). -/
def isNormal : DriverOutcome → Bool
  | .normal _ => true
  | .awaitInput _ => false
  | .fatalExit _ _ => false

/-- The record of the pass that killed the process, if any. -/
def outcomeFatal? : DriverOutcome → Option FatalRecord
  | .fatalExit _ c => some c
  | _ => none

/-- The dimension and device trace of the first pass a run executed,
completed or fatal. -/
def firstPass? : DriverOutcome → Option (Nat × List DevOp)
  | .normal (r :: _) => some (r.n, r.devTrace)
  | .awaitInput (r :: _) => some (r.n, r.devTrace)
  | .fatalExit (r :: _) _ => some (r.n, r.devTrace)
  | .fatalExit [] c => some (c.n, c.devTrace)
  | _ => none

/-- The loop of `main`: the condition `block_size > 0` is tested BEFORE
the next pair is read, so the pass that reads a non-positive
`block_size` still enters the benchmark body; if the `matrixMultiply`
call of a pass hits a failing device check the process dies there
(`exit(EXIT_FAILURE)`) — `serialMultiply`, the correctness check and the
loop re-test are never reached for that pass. -/
def driverLoop (fails : DevOp → Bool) : Int → List (Int × Int) → DriverOutcome
  | bs, [] => if bs ≤ 0 then .normal [] else .awaitInput []
  | bs, (b, g) :: rest =>
    if bs ≤ 0 then .normal []
    else if (matrixMultiplyTrace (failsFor fails b g)).2 then
      .fatalExit [] ⟨b, g, (b * g).toNat, (matrixMultiplyTrace (failsFor fails b g)).1⟩
    else
      match driverLoop fails b rest with
      | .normal l => .normal (benchIteration fails b g :: l)
      | .awaitInput l => .awaitInput (benchIteration fails b g :: l)
      | .fatalExit l c => .fatalExit (benchIteration fails b g :: l) c

/-- The operator pairs whose pass completes (mirrors `driverLoop`). -/
def driverConsumed (fails : DevOp → Bool) : Int → List (Int × Int) → List (Int × Int)
  | _, [] => []
  | bs, (b, g) :: rest =>
    if bs ≤ 0 then []
    else if (matrixMultiplyTrace (failsFor fails b g)).2 then []
    else (b, g) :: driverConsumed fails b rest

/-- The function `main` enters the loop with `int block_size = 1`. -/
def mainDriver (fails : DevOp → Bool) (inputs : List (Int × Int)) : DriverOutcome :=
  driverLoop fails 1 inputs

/-- The first call of a sequence is always performed. -/
theorem runCalls_fst_cons (f : DevOp → Bool) (op : DevOp) (l : List DevOp) :
    ∃ t, (runCalls f (op :: l)).1 = op :: t := by
  by_cases h : (op ≠ DevOp.kLaunch ∧ f op = true)
  · exact ⟨[], by simp [runCalls, h]⟩
  · exact ⟨(runCalls f l).1, by simp [runCalls, h]⟩

/-- A checked call the oracle fails makes the sequence abort. -/
theorem runCalls_snd_true (f : DevOp → Bool) (l : List DevOp) (op0 : DevOp)
    (hmem : op0 ∈ l) (hne : op0 ≠ DevOp.kLaunch) (hf : f op0 = true) :
    (runCalls f l).2 = true := by
  induction l with
  | nil => cases hmem
  | cons a rest ih =>
    by_cases h : (a ≠ DevOp.kLaunch ∧ f a = true)
    · simp [runCalls, h]
    · rcases List.mem_cons.1 hmem with heq | hmem2
      · exact absurd ⟨by rw [heq] at hne; exact hne, by rw [heq] at hf; exact hf⟩ h
      · simp only [runCalls, if_neg h]
        exact ih hmem2

/-- A sequence aborted at a failing call performs nothing after it:
every call in the resulting trace lies at or before the failing one. -/
theorem runCalls_fst_subset (f : DevOp → Bool) (l1 l2 : List DevOp) (op0 : DevOp)
    (hne : op0 ≠ DevOp.kLaunch) (hf : f op0 = true) :
    ∀ op ∈ (runCalls f (l1 ++ op0 :: l2)).1, op ∈ l1 ++ [op0] := by
  induction l1 with
  | nil =>
    intro op hop
    have habort : runCalls f (op0 :: l2) = ([op0], true) := by
      simp [runCalls, hne, hf]
    rw [List.nil_append, habort] at hop
    simpa using hop
  | cons a rest ih =>
    intro op hop
    rw [List.cons_append] at hop
    by_cases h : (a ≠ DevOp.kLaunch ∧ f a = true)
    · have habort : runCalls f (a :: (rest ++ op0 :: l2)) = ([a], true) := by
        simp [runCalls, h]
      rw [habort] at hop
      simp only [List.mem_singleton] at hop
      simp [hop]
    · simp only [runCalls, if_neg h] at hop
      rcases List.mem_cons.1 hop with heq | hop2
      · simp [heq]
      · rw [List.cons_append]
        exact List.mem_cons_of_mem _ (ih op hop2)

/-- A failing launch-error check makes `matrixMultiply` exit fatally. -/
theorem matrixMultiplyTrace_fatal (f : DevOp → Bool)
    (hf : f DevOp.lastErr = true) :
    (matrixMultiplyTrace f).2 = true := by
  have h := runCalls_snd_true f matrixMultiplyCalls DevOp.lastErr
    (by decide) (by decide) hf
  simp [matrixMultiplyTrace, h]

/-- With the launch-error check failing, nothing past it runs: the stop
event is never recorded, no elapsed time is computed, and the result is
never copied back — so no multiplication result, timing sample, or
correctness check exists for that call. -/
theorem matrixMultiplyTrace_fatal_stops (f : DevOp → Bool)
    (hf : f DevOp.lastErr = true) :
    DevOp.recStop ∉ (matrixMultiplyTrace f).1
      ∧ DevOp.elapsed ∉ (matrixMultiplyTrace f).1
      ∧ DevOp.cpyC ∉ (matrixMultiplyTrace f).1
      ∧ DevOp.evSync ∉ (matrixMultiplyTrace f).1 := by
  have hfat := runCalls_snd_true f matrixMultiplyCalls DevOp.lastErr
    (by decide) (by decide) hf
  have htr : (matrixMultiplyTrace f).1 = (runCalls f matrixMultiplyCalls).1 := by
    simp [matrixMultiplyTrace, hfat]
  have hsub : ∀ op ∈ (runCalls f matrixMultiplyCalls).1,
      op ∈ [DevOp.mallocA, DevOp.mallocB, DevOp.mallocC, DevOp.cpyA, DevOp.cpyB,
        DevOp.evCreateStart, DevOp.evCreateStop, DevOp.recStart, DevOp.kLaunch]
        ++ [DevOp.lastErr] :=
    runCalls_fst_subset f
      [DevOp.mallocA, DevOp.mallocB, DevOp.mallocC, DevOp.cpyA, DevOp.cpyB,
        DevOp.evCreateStart, DevOp.evCreateStop, DevOp.recStart, DevOp.kLaunch]
      [DevOp.recStop, DevOp.evSync, DevOp.elapsed, DevOp.cpyC]
      DevOp.lastErr (by decide) hf
  rw [htr]
  exact ⟨fun hmem => absurd (hsub _ hmem) (by decide),
    fun hmem => absurd (hsub _ hmem) (by decide),
    fun hmem => absurd (hsub _ hmem) (by decide),
    fun hmem => absurd (hsub _ hmem) (by decide)⟩

/-- Every `matrixMultiply` call performs the allocation of `d_A` as its
very first device call, whatever the oracle does: no rejection of any
kind precedes the allocations. -/
theorem matrixMultiplyTrace_starts_with_malloc (f : DevOp → Bool) :
    ((matrixMultiplyTrace f).1).take 1 = [DevOp.mallocA] := by
  obtain ⟨t, ht⟩ := runCalls_fst_cons f DevOp.mallocA
    [DevOp.mallocB, DevOp.mallocC, DevOp.cpyA, DevOp.cpyB, DevOp.evCreateStart,
      DevOp.evCreateStop, DevOp.recStart, DevOp.kLaunch, DevOp.lastErr,
      DevOp.recStop, DevOp.evSync, DevOp.elapsed, DevOp.cpyC]
  have ht2 : (runCalls f matrixMultiplyCalls).1 = DevOp.mallocA :: t := ht
  by_cases h : (runCalls f matrixMultiplyCalls).2
  · simp [matrixMultiplyTrace, h, ht2]
  · simp [matrixMultiplyTrace, h, ht2]

/-- A non-positive shape in a consumed pair forces the pass fatal. -/
theorem pass_fatal_of_nonpositive (fails : DevOp → Bool) (b g : Int)
    (h : b ≤ 0 ∨ g ≤ 0) :
    (matrixMultiplyTrace (failsFor fails b g)).2 = true := by
  have hbad : launchConfigBad b g = true := by
    rcases h with h | h <;> simp [launchConfigBad, h]
  exact matrixMultiplyTrace_fatal _ (by simp [failsFor, hbad])

/-- The completed iterations are exactly `benchIteration` mapped over the
pairs whose pass completed: each pass is a function of its own pair
alone, with no state carried between passes. -/
theorem driverLoop_iters (fails : DevOp → Bool) (inputs : List (Int × Int))
    (bs : Int) :
    outcomeIters (driverLoop fails bs inputs)
      = (driverConsumed fails bs inputs).map
          fun p => benchIteration fails p.1 p.2 := by
  induction inputs generalizing bs with
  | nil =>
    by_cases h : bs ≤ 0 <;> simp [driverLoop, driverConsumed, h, outcomeIters]
  | cons p rest ih =>
    obtain ⟨b, g⟩ := p
    by_cases h : bs ≤ 0
    · simp [driverLoop, driverConsumed, h, outcomeIters]
    · by_cases hfat : (matrixMultiplyTrace (failsFor fails b g)).2 = true
      · simp [driverLoop, driverConsumed, h, hfat, outcomeIters]
      · have hrec := ih b
        simp only [driverLoop, driverConsumed, if_neg h, if_neg hfat]
        cases hcase : driverLoop fails b rest with
        | normal l =>
          rw [hcase] at hrec
          simpa [outcomeIters] using hrec
        | awaitInput l =>
          rw [hcase] at hrec
          simpa [outcomeIters] using hrec
        | fatalExit l c =>
          rw [hcase] at hrec
          simpa [outcomeIters] using hrec

/-- The program NEVER terminates normally: `exit(0)` is unreachable.  To
leave the loop the previous pass must have read a non-positive
`block_size`, but that same pass already died fatally at the rejected
kernel launch. -/
theorem driverLoop_never_normal (fails : DevOp → Bool)
    (inputs : List (Int × Int)) (bs : Int) (hbs : 0 < bs) :
    isNormal (driverLoop fails bs inputs) = false := by
  induction inputs generalizing bs with
  | nil =>
    have h : ¬ bs ≤ 0 := by omega
    simp [driverLoop, isNormal, h]
  | cons p rest ih =>
    obtain ⟨b, g⟩ := p
    have h : ¬ bs ≤ 0 := by omega
    by_cases hfat : (matrixMultiplyTrace (failsFor fails b g)).2 = true
    · simp [driverLoop, isNormal, h, hfat]
    · have hb : 0 < b := by
        by_contra hb2
        exact hfat (pass_fatal_of_nonpositive fails b g (Or.inl (by omega)))
      have hrec := ih b hb
      simp only [driverLoop, if_neg h, if_neg hfat]
      cases hcase : driverLoop fails b rest with
      | normal l => rw [hcase] at hrec; simp [isNormal] at hrec
      | awaitInput l => simp [isNormal]
      | fatalExit l c => simp [isNormal]

/-- The pass for the first non-positive pair kills the process: the run
ends in `fatalExit` carrying the completed earlier iterations and the
partial device trace of the dying pass. -/
theorem driverLoop_fatal_at_nonpositive (fails : DevOp → Bool)
    (l1 l2 : List (Int × Int)) (b0 g0 : Int)
    (hpos : ∀ p ∈ l1, 0 < p.1)
    (hcomplete : ∀ p ∈ l1, (matrixMultiplyTrace (failsFor fails p.1 p.2)).2 = false)
    (hb0 : b0 ≤ 0) (bs : Int) (hbs : 0 < bs) :
    driverLoop fails bs (l1 ++ (b0, g0) :: l2)
      = .fatalExit (l1.map fun p => benchIteration fails p.1 p.2)
          ⟨b0, g0, (b0 * g0).toNat, (matrixMultiplyTrace (failsFor fails b0 g0)).1⟩ := by
  induction l1 generalizing bs with
  | nil =>
    have h : ¬ bs ≤ 0 := by omega
    have hfat : (matrixMultiplyTrace (failsFor fails b0 g0)).2 = true :=
      pass_fatal_of_nonpositive fails b0 g0 (Or.inl hb0)
    simp [driverLoop, h, hfat]
  | cons p rest ih =>
    obtain ⟨b, g⟩ := p
    have h : ¬ bs ≤ 0 := by omega
    have hb : 0 < b := hpos (b, g) (List.mem_cons_self _ _)
    have hok : ¬ (matrixMultiplyTrace (failsFor fails b g)).2 = true := by
      rw [hcomplete (b, g) (List.mem_cons_self _ _)]
      decide
    have hrec := ih (fun q hq => hpos q (List.mem_cons_of_mem _ hq))
      (fun q hq => hcomplete q (List.mem_cons_of_mem _ hq)) b hb
    simp only [List.cons_append, driverLoop, if_neg h, if_neg hok, List.append_eq]
    rw [hrec]
    simp

/-- C5 (amended): when the operator supplies a non-positive worker-group
shape, the run terminates during that pass — but fatally, not normally:
the invalid shape makes the kernel launch be rejected and
`matrixMultiply` exits with `EXIT_FAILURE` at its launch-error check, so
for that input no multiplication completes, the stop event, elapsed time
and result copy-back never happen (no timing, no correctness check), and
`serialMultiply` is never reached; normal termination (`exit(0)`) is not
reached then — nor on any other input. -/
theorem C5_nonpositive_input_fatal (fails : DevOp → Bool)
    (l1 l2 : List (Int × Int)) (b0 g0 : Int)
    (hpos : ∀ p ∈ l1, 0 < p.1)
    (hcomplete : ∀ p ∈ l1, (matrixMultiplyTrace (failsFor fails p.1 p.2)).2 = false)
    (hb0 : b0 ≤ 0) :
    mainDriver fails (l1 ++ (b0, g0) :: l2)
        = .fatalExit (l1.map fun p => benchIteration fails p.1 p.2)
            ⟨b0, g0, (b0 * g0).toNat, (matrixMultiplyTrace (failsFor fails b0 g0)).1⟩
      ∧ DevOp.recStop ∉ (matrixMultiplyTrace (failsFor fails b0 g0)).1
      ∧ DevOp.elapsed ∉ (matrixMultiplyTrace (failsFor fails b0 g0)).1
      ∧ DevOp.cpyC ∉ (matrixMultiplyTrace (failsFor fails b0 g0)).1
      ∧ ∀ (f2 : DevOp → Bool) (inputs : List (Int × Int)),
          isNormal (mainDriver f2 inputs) = false := by
  have hbad : launchConfigBad b0 g0 = true := by simp [launchConfigBad, hb0]
  have hlast : failsFor fails b0 g0 DevOp.lastErr = true := by
    simp [failsFor, hbad]
  obtain ⟨h1, h2, h3, _h4⟩ := matrixMultiplyTrace_fatal_stops _ hlast
  exact ⟨driverLoop_fatal_at_nonpositive fails l1 l2 b0 g0 hpos hcomplete hb0 1
      (by omega),
    h1, h2, h3,
    fun f2 inputs => driverLoop_never_normal f2 inputs 1 (by omega)⟩

/-- Witness for C5 (amended): operator enters (2, 2) then (0, 3); the
first pass completes, the second dies at the rejected launch. -/
theorem C5_nonpositive_input_fatal_witness :
    ((∀ p ∈ [((2 : Int), (2 : Int))], 0 < p.1)
      ∧ (∀ p ∈ [((2 : Int), (2 : Int))],
          (matrixMultiplyTrace (failsFor (fun _ => false) p.1 p.2)).2 = false)
      ∧ (0 : Int) ≤ 0)
      ∧ (mainDriver (fun _ => false) ([((2 : Int), (2 : Int))] ++ ((0 : Int), (3 : Int)) :: [])
          = .fatalExit ([((2 : Int), (2 : Int))].map
                fun p => benchIteration (fun _ => false) p.1 p.2)
              ⟨0, 3, ((0 : Int) * 3).toNat,
                (matrixMultiplyTrace (failsFor (fun _ => false) 0 3)).1⟩
        ∧ DevOp.recStop ∉ (matrixMultiplyTrace (failsFor (fun _ => false) 0 3)).1
        ∧ DevOp.elapsed ∉ (matrixMultiplyTrace (failsFor (fun _ => false) 0 3)).1
        ∧ DevOp.cpyC ∉ (matrixMultiplyTrace (failsFor (fun _ => false) 0 3)).1
        ∧ ∀ (f2 : DevOp → Bool) (inputs : List (Int × Int)),
            isNormal (mainDriver f2 inputs) = false) :=
  ⟨⟨by decide, by decide, by decide⟩,
    C5_nonpositive_input_fatal (fun _ => false) [((2 : Int), (2 : Int))] [] 0 3
      (by decide) (by decide) (by decide)⟩

/-- C5, counterexample.  The claim that on a non-positive worker-group
shape the driver loop terminates with normal termination of the program
occurring in (exactly) this case fails on the code: at the input (0, 3)
the program does not terminate normally at all — the invalid shape makes
the kernel launch be rejected and the process dies with `EXIT_FAILURE`
at the launch-error check, its device trace ending there (the stop
event, elapsed time and result copy never happen, and no iteration
completes); `exit(0)` is not reached. -/
theorem C5_counterexample :
    isNormal (mainDriver (fun _ => false) [((0 : Int), (3 : Int))]) = false
      ∧ outcomeFatal? (mainDriver (fun _ => false) [((0 : Int), (3 : Int))])
          = some ⟨0, 3, 0,
              [DevOp.mallocA, DevOp.mallocB, DevOp.mallocC, DevOp.cpyA, DevOp.cpyB,
                DevOp.evCreateStart, DevOp.evCreateStop, DevOp.recStart,
                DevOp.kLaunch, DevOp.lastErr]⟩
      ∧ (outcomeIters (mainDriver (fun _ => false) [((0 : Int), (3 : Int))])).length
          = 0 := by
  decide

/-- C4 (amended): the driver validates nothing — any supplied pair is
consumed and a `matrixMultiply` pass runs with the silently computed
`n = block_size * grid_size`; the very first device call of every pass
is the allocation of `d_A`, so nothing is rejected before allocation.
For a mismatched pair (product `n = 0`, i.e. a non-positive shape) the
failure surfaces only afterwards: the launch is rejected and the pass
exits fatally at the `cudaGetLastError` check — after the allocations,
not before. -/
theorem C4_no_rejection_before_alloc (fails : DevOp → Bool) (b g : Int)
    (rest : List (Int × Int)) :
    firstPass? (mainDriver fails ((b, g) :: rest))
        = some ((b * g).toNat, (matrixMultiplyTrace (failsFor fails b g)).1)
      ∧ ((matrixMultiplyTrace (failsFor fails b g)).1).take 1 = [DevOp.mallocA]
      ∧ (launchConfigBad b g = true →
          (matrixMultiplyTrace (failsFor fails b g)).2 = true) := by
  refine ⟨?_, matrixMultiplyTrace_starts_with_malloc _,
    fun hbad => matrixMultiplyTrace_fatal _ (by simp [failsFor, hbad])⟩
  rw [mainDriver]
  by_cases hfat : (matrixMultiplyTrace (failsFor fails b g)).2 = true
  · simp [driverLoop, hfat, firstPass?, show ¬ (1 : Int) ≤ 0 by decide]
  · simp only [driverLoop, if_neg (show ¬ (1 : Int) ≤ 0 by decide), if_neg hfat]
    cases hcase : driverLoop fails b rest <;> simp [firstPass?, benchIteration]

/-- Witness for C4 at the pair (0, 5) with the otherwise-benign oracle:
`n = 0` is computed silently, the first device call of the pass is the
allocation of `d_A`, and the mismatch makes the pass fatal — after the
allocations. -/
theorem C4_no_rejection_before_alloc_witness :
    firstPass? (mainDriver (fun _ => false) [((0 : Int), (5 : Int))])
        = some (((0 : Int) * 5).toNat,
            (matrixMultiplyTrace (failsFor (fun _ => false) 0 5)).1)
      ∧ ((matrixMultiplyTrace (failsFor (fun _ => false) 0 5)).1).take 1
          = [DevOp.mallocA]
      ∧ (matrixMultiplyTrace (failsFor (fun _ => false) 0 5)).2 = true :=
  ⟨(C4_no_rejection_before_alloc (fun _ => false) 0 5 []).1,
    (C4_no_rejection_before_alloc (fun _ => false) 0 5 []).2.1,
    (C4_no_rejection_before_alloc (fun _ => false) 0 5 []).2.2 (by decide)⟩

/-- C4, counterexample.  The claim "the driver rejects a mismatched pair
(e.g. shapes whose product is n = 0) before any host or device
allocation occurs" fails on the code: for the pair (0, 5) the driver
consumes the pair, silently computes `n = 0`, and the pass performs all
three device allocations and both input transfers before dying at the
launch-error check — allocation happens, rejection before it does not. -/
theorem C4_counterexample :
    outcomeFatal? (mainDriver (fun _ => false) [((0 : Int), (5 : Int))])
        = some ⟨0, 5, 0,
            [DevOp.mallocA, DevOp.mallocB, DevOp.mallocC, DevOp.cpyA, DevOp.cpyB,
              DevOp.evCreateStart, DevOp.evCreateStop, DevOp.recStart,
              DevOp.kLaunch, DevOp.lastErr]⟩
      ∧ (outcomeIters (mainDriver (fun _ => false) [((0 : Int), (5 : Int))])).length
          = 0 := by
  decide

/-- Reading `List.getD` through `List.map`. -/
theorem getD_map {α β : Type} (f : α → β) (l : List α) (n : Nat) (d : α) :
    (l.map f).getD n (f d) = f (l.getD n d) := by
  induction l generalizing n with
  | nil => simp [List.getD]
  | cons a rest ih =>
    cases n with
    | zero => simp [List.getD]
    | succ n => simp [List.getD]

/-- C8: the completed iterations are a deterministic function of the
consumed pair alone — two passes given the same (worker-group shape,
group-count shape) pair produce identical records, in particular output
matrices that are equal element by element (bitwise, in the binary32
model).  No state influences a pass besides its own pair. -/
theorem C8_rerun_same_pair_same_output (fails : DevOp → Bool)
    (inputs : List (Int × Int)) (i j : Nat)
    (_hi : i < (driverConsumed fails 1 inputs).length)
    (_hj : j < (driverConsumed fails 1 inputs).length)
    (heq : (driverConsumed fails 1 inputs).getD i (0, 0)
      = (driverConsumed fails 1 inputs).getD j (0, 0)) :
    (outcomeIters (mainDriver fails inputs)).getD i (benchIteration fails 0 0)
      = (outcomeIters (mainDriver fails inputs)).getD j (benchIteration fails 0 0) := by
  rw [mainDriver, driverLoop_iters]
  have h1 := getD_map (fun p : Int × Int => benchIteration fails p.1 p.2)
    (driverConsumed fails 1 inputs) i (0, 0)
  have h2 := getD_map (fun p : Int × Int => benchIteration fails p.1 p.2)
    (driverConsumed fails 1 inputs) j (0, 0)
  rw [h1, h2, heq]

/-- Witness for C8: entering (2, 2) twice yields identical iteration
records. -/
theorem C8_rerun_same_pair_same_output_witness :
    ((0 : Nat) < (driverConsumed (fun _ => false) 1
        [((2 : Int), (2 : Int)), ((2 : Int), (2 : Int))]).length
      ∧ (1 : Nat) < (driverConsumed (fun _ => false) 1
        [((2 : Int), (2 : Int)), ((2 : Int), (2 : Int))]).length
      ∧ (driverConsumed (fun _ => false) 1
          [((2 : Int), (2 : Int)), ((2 : Int), (2 : Int))]).getD 0 (0, 0)
        = (driverConsumed (fun _ => false) 1
          [((2 : Int), (2 : Int)), ((2 : Int), (2 : Int))]).getD 1 (0, 0))
      ∧ (outcomeIters (mainDriver (fun _ => false)
            [((2 : Int), (2 : Int)), ((2 : Int), (2 : Int))])).getD 0
          (benchIteration (fun _ => false) 0 0)
        = (outcomeIters (mainDriver (fun _ => false)
            [((2 : Int), (2 : Int)), ((2 : Int), (2 : Int))])).getD 1
          (benchIteration (fun _ => false) 0 0) :=
  ⟨⟨by decide, by decide, by decide⟩,
    C8_rerun_same_pair_same_output (fun _ => false)
      [((2 : Int), (2 : Int)), ((2 : Int), (2 : Int))] 0 1
      (by decide) (by decide) (by decide)⟩


/-- Witness for C9: the 4×4 matrices of the labs' `main`, element (2, 3):
`b[2*4+3] = a[2*4+3] + 16`. -/
theorem C9_fillMat_counter_persists_witness :
    ((2 : Nat) < 4 ∧ (3 : Nat) < 4)
      ∧ (fillMat (fun _ => 0) 4 4 (fillMat (fun _ => 0) 4 4 0).2).1 (2 * 4 + 3)
          = (fillMat (fun _ => 0) 4 4 0).1 (2 * 4 + 3) + 4 * 4 :=
  ⟨⟨by decide, by decide⟩,
    C9_fillMat_counter_persists (fun _ => 0) (fun _ => 0) 4 4 2 3
      (by decide) (by decide)⟩
